import Mathlib

/-!
# ALLHiC_prune: the command-line driver and the pruning pipeline

Part I embeds `main` of `src/ALLHiC_prune.cpp`.  The driver is straight-line
code around one flag loop; its observable behaviour is the sequence of things
it does to the outside world (insertions into `cout`, calls of `clock`, calls
of the member functions of its `Prune` object) together with its exit status.
`Prune.h` is not among the sources, so the only value `main` receives back
from a stage, the return value of `CreatePrunedBam`, is a parameter of the
embedding, as are the two readings of `clock` and `CLOCKS_PER_SEC`.

Part II models the four pruning components (allele table, contig pair index,
decision engine, alignment rewriter) from the specification, because the
class `Prune` that implements them is not among the sources.
-/

namespace ALLHiCPrune

/-! ## Part I: the driver `main` -/

/-- One observable action of `main`, in program order. -/
inductive Event where
  /-- Insertion of a character string into `cout` (`cout << "..."`). -/
  | cout (s : String)
  /-- Insertion of an integer into `cout` (`cout << rmcnt`). -/
  | coutNum (n : Int)
  /-- Insertion of `endl` into `cout`. -/
  | endl
  /-- A call of `clock()`. -/
  | clock
  /-- The call `prune.SetParameter(bamfile, table)`. -/
  | SetParameter (bamfile table : String)
  /-- The call `prune.GeneratePairsAndCtgs()`. -/
  | GeneratePairsAndCtgs
  /-- The call `prune.GenerateRemovedb()`. -/
  | GenerateRemovedb
  /-- The call `prune.CreatePrunedBam()`. -/
  | CreatePrunedBam
  deriving DecidableEq, Repr

/-- Whether an event is a call of one of the four stages of `Prune`. -/
def Event.isStage : Event → Bool
  | .SetParameter _ _ => true
  | .GeneratePairsAndCtgs => true
  | .GenerateRemovedb => true
  | .CreatePrunedBam => true
  | _ => false

/-- The local variables `bamfile` and `table` of `main`; both start out as the
empty `std::string`. -/
structure Params where
  bamfile : String
  table : String
  deriving DecidableEq, Repr

/-- The flag loop `for (long i = 1; i < 5; i += 2)` of `main`: `argv[i]` is
compared with `"-i"` and `"-b"` (`strcmp(..) == 0`), a match stores
`argv[i + 1]` and continues, anything else falls through to the next
iteration. -/
def flagLoop (argv : List String) (i : Nat) (p : Params) : Params :=
  if i < 5 then
    if argv.getD i "" = "-i" then
      flagLoop argv (i + 2) { p with table := argv.getD (i + 1) "" }
    else if argv.getD i "" = "-b" then
      flagLoop argv (i + 2) { p with bamfile := argv.getD (i + 1) "" }
    else
      flagLoop argv (i + 2) p
  else p
termination_by 5 - i

/-- The function `main` of `ALLHiC_prune.cpp`.  The argument vector is
`argv0 :: args`, so `argc = args.length + 1`; `rmcnt` is the value
`prune.CreatePrunedBam()` returns in this run, `startt` and `endt` are the
two readings of `clock()`.  Every call of a stage returns to `main`, as a
C++ call does unless the callee ends the program.  The result is the trace of
observable actions and the exit status. -/
def main (argv0 : String) (args : List String) (rmcnt startt endt CLOCKS_PER_SEC : Int) :
    List Event × Int :=
  let argv := argv0 :: args
  let argc := argv.length
  if argc ≠ 5 then
    ([ .cout "************************************************************************\n",
       .cout "    Usage: ", .cout argv0, .cout " -i Allele.ctg.table -b sorted.bam\n",
       .cout "      -h : help and usage.\n",
       .cout "      -i : Allele.ctg.table\n",
       .cout "      -b : sorted.bam\n",
       .cout "************************************************************************\n" ],
     0)
  else
    let p := flagLoop argv 1 { bamfile := "", table := "" }
    ([ .clock,
       .SetParameter p.bamfile p.table,
       .cout "Getting contig pairs", .endl,
       .GeneratePairsAndCtgs,
       .cout "Generating remove reads", .endl,
       .GenerateRemovedb,
       .cout "Creating prunned bam file", .endl,
       .CreatePrunedBam,
       .cout "Removed ", .coutNum rmcnt, .cout " reads", .endl,
       .clock,
       .cout "use time: ", .coutNum (Int.tdiv (endt - startt) CLOCKS_PER_SEC), .cout "s\n" ],
     0)

/-- The stage calls of a run, in program order. -/
def stageCalls (r : List Event × Int) : List Event :=
  r.1.filter Event.isStage

/-! ## Part II: the pruning pipeline

The member functions of `Prune` that `main` calls are not among the sources.
The definitions of this part follow sections 3 and 4 of the specification:
`AlleleTable.load` and `PruneDecisionEngine.decide` stand for
`GenerateRemovedb`, `ContigPairIndex.build` for `GeneratePairsAndCtgs` and
`AlignmentRewriter.rewrite` for `CreatePrunedBam`.  Contig identifiers are any
linearly ordered type (the order is the tie-break order of section 4.3).
-/

section Pipeline

variable {κ : Type} [LinearOrder κ]

/-- Modelled from the spec: the error kinds of section 7 (the error type of the
missing class `Prune`). -/
inductive PruneError where
  | parseError
  | formatError
  | ioError
  deriving DecidableEq, Repr

/-- Modelled from the spec: the allele table of section 4.1 (loaded inside the
missing `Prune::GenerateRemovedb`), one allele group per record of the
source. -/
structure AlleleTable (κ : Type) where
  groups : List (List κ)

/-- Modelled from the spec: `load` of section 4.1 (missing `Prune` code).  The
source is the list of its records, each already split into contig
identifiers; loading fails with `ParseError` when a contig is listed in more
than one group. -/
def AlleleTable.load (source : List (List κ)) : Except PruneError (AlleleTable κ) :=
  if source.Pairwise (fun g h => ∀ c ∈ g, c ∉ h) then .ok { groups := source }
  else .error .parseError

/-- Modelled from the spec: position of the first group of a list that
contains the contig (helper of `groupOf`, section 4.1; missing `Prune` code). -/
def groupIndex (c : κ) : List (List κ) → Option Nat
  | [] => none
  | g :: rest => if c ∈ g then some 0 else (groupIndex c rest).map (· + 1)

/-- Modelled from the spec: `groupOf` of section 4.1 (missing `Prune` code);
contigs absent from the table have no group. -/
def AlleleTable.groupOf (t : AlleleTable κ) (c : κ) : Option Nat :=
  groupIndex c t.groups

/-- Modelled from the spec: `sameGroup` of section 4.1 (missing `Prune`
code). -/
def AlleleTable.sameGroup (t : AlleleTable κ) (a b : κ) : Bool :=
  match t.groupOf a, t.groupOf b with
  | some i, some j => i == j
  | _, _ => false

/-- Modelled from the spec: the alignment record of section 3 (the records of
the alignment file read by the missing `Prune` code): query name, reference
contig, position, mate information, and whether the alignment is primary. -/
structure AlignmentRecord (κ : Type) where
  qname : String
  ref : κ
  pos : Nat
  mateRef : κ
  matePos : Nat
  primary : Bool

/-- Modelled from the spec: the contig pair of section 3 that an alignment
supports (missing `Prune` code): the unordered pair of its reference contig and
its mate's, when the two are distinct. -/
def AlignmentRecord.link (r : AlignmentRecord κ) : Option (Sym2 κ) :=
  if r.ref = r.mateRef then none else some s(r.ref, r.mateRef)

/-- Modelled from the spec: the contig pair index of section 4.2 (built by the
missing `Prune::GeneratePairsAndCtgs`): the contigs that take part in a
counted pair, and the link count of each pair. -/
structure ContigPairIndex (κ : Type) where
  contigs : List κ
  counts : List (Sym2 κ × Nat)

/-- Modelled from the spec: lookup in the mapping from contig pair to link
count (section 4.2, missing `Prune` code); an absent pair has count 0. -/
def countOf (p : Sym2 κ) : List (Sym2 κ × Nat) → Nat
  | [] => 0
  | (q, n) :: rest => if q = p then n else countOf p rest

/-- Modelled from the spec: `linkCount` of a contig pair (sections 3 and 4.2,
missing `Prune` code). -/
def ContigPairIndex.linkCount (idx : ContigPairIndex κ) (p : Sym2 κ) : Nat :=
  countOf p idx.counts

/-- Modelled from the spec: "increments `linkCount` for the unordered
ContigPair" (section 4.2, missing `Prune` code). -/
def bump (p : Sym2 κ) : List (Sym2 κ × Nat) → List (Sym2 κ × Nat)
  | [] => [(p, 1)]
  | (q, n) :: rest => if q = p then (q, n + 1) :: rest else (q, n) :: bump p rest

/-- Modelled from the spec: the state of the counting pass (section 4.2,
missing `Prune::GeneratePairsAndCtgs`): the query names whose first mate has
been seen and whose second mate has not, and the index built so far. -/
structure BuildState (κ : Type) where
  pending : List String
  index : ContigPairIndex κ

/-- Modelled from the spec: one step of the counting pass (section 4.2, missing
`Prune::GeneratePairsAndCtgs`).  Only primary alignments count; alignments
whose mate lies on the same contig are ignored; alignments are grouped by query
name, and the link count of a pair goes up by one when the second mate of a
read pair arrives. -/
def ContigPairIndex.step (st : BuildState κ) (r : AlignmentRecord κ) : BuildState κ :=
  if r.primary then
    match r.link with
    | none => st
    | some p =>
      if r.qname ∈ st.pending then
        { pending := st.pending.erase r.qname,
          index :=
            { contigs := (st.index.contigs.insert r.mateRef).insert r.ref,
              counts := bump p st.index.counts } }
      else
        { st with pending := r.qname :: st.pending }
  else st

/-- Modelled from the spec: `build` of section 4.2 (missing
`Prune::GeneratePairsAndCtgs`): a single pass over the alignment stream. -/
def ContigPairIndex.build (stream : List (AlignmentRecord κ)) : ContigPairIndex κ :=
  (stream.foldl ContigPairIndex.step
    { pending := [], index := { contigs := [], counts := [] } }).index

/-- The invariant of the counting pass: both members of a pair with a positive
count are among the contigs of the index. -/
def IndexClosed (idx : ContigPairIndex κ) : Prop :=
  ∀ a b : κ, 0 < idx.linkCount s(a, b) → a ∈ idx.contigs ∧ b ∈ idx.contigs

/-- Modelled from the spec: the order in which the cross-group rule of section
4.3 ranks the siblings of a group as neighbours of the partner `P` (missing
`Prune::GenerateRemovedb`): `X` comes before `Y` when it has the higher link
count with `P`, or the same link count and the smaller identifier. -/
def preferred (idx : ContigPairIndex κ) (P X Y : κ) : Bool :=
  decide (idx.linkCount s(Y, P) < idx.linkCount s(X, P)) ||
    (decide (idx.linkCount s(X, P) = idx.linkCount s(Y, P)) && decide (X < Y))

/-- Modelled from the spec: the single sibling whose link with `P` is retained
(section 4.3 rule 2 with its tie-break; missing `Prune::GenerateRemovedb`). -/
def bestSibling (idx : ContigPairIndex κ) (P : κ) : List κ → Option κ
  | [] => none
  | X :: rest =>
    match bestSibling idx P rest with
    | none => some X
    | some Y => if preferred idx P Y X then some Y else some X

/-- Modelled from the spec: the intra-group rule of section 4.3 (missing
`Prune::GenerateRemovedb`): every pair of two distinct members of the group. -/
def intraGroup (G : List κ) : List (Sym2 κ) :=
  G.flatMap (fun a => (G.filter (fun b => decide (b ≠ a))).map (fun b => s(a, b)))

/-- Modelled from the spec: the cross-group rule of section 4.3 for one group
`G` and one external contig `P` (missing `Prune::GenerateRemovedb`): among the
siblings with links to `P` the best one is retained, the links of the others
with `P` are marked. -/
def crossGroup (idx : ContigPairIndex κ) (G : List κ) (P : κ) : List (Sym2 κ) :=
  let linked := G.filter (fun X => decide (0 < idx.linkCount s(X, P)))
  match bestSibling idx P linked with
  | none => []
  | some best => (linked.filter (fun X => decide (X ≠ best))).map (fun X => s(X, P))

/-- Modelled from the spec: `decide` of section 4.3 (missing
`Prune::GenerateRemovedb`): the removal set is the union, over all allele
groups, of the pairs marked by the intra-group rule and by the cross-group rule
for every contig outside the group. -/
def PruneDecisionEngine.decide (tbl : AlleleTable κ) (idx : ContigPairIndex κ) :
    List (Sym2 κ) :=
  tbl.groups.flatMap (fun G =>
    intraGroup G ++
      (idx.contigs.filter (fun P => Decidable.decide (P ∉ G))).flatMap (crossGroup idx G))

/-- Modelled from the spec: whether the rewriter drops an alignment (section
4.4, missing `Prune::CreatePrunedBam`): its contig pair is in the removal
set. -/
def AlignmentRewriter.drops (removal : List (Sym2 κ)) (r : AlignmentRecord κ) : Bool :=
  match r.link with
  | none => false
  | some p => decide (p ∈ removal)

/-- Modelled from the spec: `rewrite` of section 4.4 (missing
`Prune::CreatePrunedBam`): the second pass over the alignment stream; the
result is the pruned stream, in the original order, and the number of dropped
alignment records. -/
def AlignmentRewriter.rewrite (removal : List (Sym2 κ)) :
    List (AlignmentRecord κ) → List (AlignmentRecord κ) × Nat
  | [] => ([], 0)
  | r :: rest =>
    let res := AlignmentRewriter.rewrite removal rest
    if AlignmentRewriter.drops removal r then (res.1, res.2 + 1) else (r :: res.1, res.2)

/-- Modelled from the spec: the run of the four components in the order of
section 2 (the stages `main` calls on its missing `Prune` object): the allele
table is loaded, pass 1 counts, the decision engine computes the removal set,
pass 2 rewrites.  The result is the pruned stream and the removed count, or the
error that aborted the run. -/
def prune (source : List (List κ)) (stream : List (AlignmentRecord κ)) :
    Except PruneError (List (AlignmentRecord κ) × Nat) :=
  match AlleleTable.load source with
  | .error e => .error e
  | .ok tbl =>
    .ok (AlignmentRewriter.rewrite
      (PruneDecisionEngine.decide tbl (ContigPairIndex.build stream)) stream)

/-- The two primary alignments of one read pair `q` whose mates map to the
contigs `a` and `b` (used to write down concrete alignment streams). -/
def readPair (q : String) (a b : κ) : List (AlignmentRecord κ) :=
  [ { qname := q, ref := a, pos := 0, mateRef := b, matePos := 0, primary := true },
    { qname := q, ref := b, pos := 0, mateRef := a, matePos := 0, primary := true } ]

/-- The alignments of `n` read pairs between `a` and `b`, named `tag0`,
`tag1`, and so on. -/
def readPairs (tag : String) (n : Nat) (a b : κ) : List (AlignmentRecord κ) :=
  (List.range n).flatMap (fun i => readPair (tag ++ toString i) a b)

/-- A stream for a group with three members: 2 read pairs link contigs 0 and
2, 1 read pair links 1 and 2, 3 read pairs link 3 and 2. -/
def threeSiblingStream : List (AlignmentRecord Nat) :=
  readPairs "ap" 2 0 2 ++ readPairs "bp" 1 1 2 ++ readPairs "dp" 3 3 2

/-- A stream in which the partner has a sibling of its own: 2 read pairs link
contigs 0 and 2, 1 read pair links 1 and 2, 3 read pairs link 0 and 4. -/
def groupedPartnerStream : List (AlignmentRecord Nat) :=
  readPairs "ap" 2 0 2 ++ readPairs "bp" 1 1 2 ++ readPairs "aq" 3 0 4

/-- A stream in which contig 1 has no counted link with contig 2: one read
pair links 0 and 2, and its first mate also has a secondary alignment on
contig 1. -/
def secondaryOnlyStream : List (AlignmentRecord Nat) :=
  readPair "q" 0 2 ++
    [{ qname := "q", ref := 1, pos := 0, mateRef := 2, matePos := 0, primary := false }]

/-- The concrete scenario of section 8: 10 read pairs link contigs 0 and 2, 4
link 1 and 2, 7 link 0 and 1. -/
def scenarioStream : List (AlignmentRecord Nat) :=
  readPairs "ac" 10 0 2 ++ readPairs "bc" 4 1 2 ++ readPairs "ab" 7 0 1

end Pipeline

/-! ### Lemmas on the flag loop -/

theorem flagLoop_five (argv : List String) (p : Params) : flagLoop argv 5 p = p := by
  rw [flagLoop]; simp

theorem flagLoop_four (a0 a1 a2 a3 a4 : String) (p : Params) :
    flagLoop [a0, a1, a2, a3, a4] 1 p =
      { bamfile := if a3 = "-b" then a4 else if a1 = "-b" then a2 else p.bamfile,
        table := if a3 = "-i" then a4 else if a1 = "-i" then a2 else p.table } := by
  rw [flagLoop]
  simp only [show (1 : Nat) < 5 by decide, if_true]
  have h3 : ∀ q : Params, flagLoop [a0, a1, a2, a3, a4] 3 q =
      { bamfile := if a3 = "-b" then a4 else q.bamfile,
        table := if a3 = "-i" then a4 else q.table } := by
    intro q
    rw [flagLoop]
    simp only [show (3 : Nat) < 5 by decide, if_true, flagLoop_five]
    simp only [List.getD_cons_succ, List.getD_cons_zero]
    split_ifs <;> simp_all [flagLoop_five]
  simp only [h3]
  simp only [List.getD_cons_succ, List.getD_cons_zero]
  split_ifs <;> simp_all

/-- With exactly four arguments the trace of `main` is the pipeline trace, with
the parameters read off the first and third argument. -/
theorem main_four (argv0 a1 a2 a3 a4 : String) (rmcnt startt endt CLOCKS_PER_SEC : Int) :
    main argv0 [a1, a2, a3, a4] rmcnt startt endt CLOCKS_PER_SEC =
      ([ .clock,
         .SetParameter (if a3 = "-b" then a4 else if a1 = "-b" then a2 else "")
           (if a3 = "-i" then a4 else if a1 = "-i" then a2 else ""),
         .cout "Getting contig pairs", .endl,
         .GeneratePairsAndCtgs,
         .cout "Generating remove reads", .endl,
         .GenerateRemovedb,
         .cout "Creating prunned bam file", .endl,
         .CreatePrunedBam,
         .cout "Removed ", .coutNum rmcnt, .cout " reads", .endl,
         .clock,
         .cout "use time: ", .coutNum (Int.tdiv (endt - startt) CLOCKS_PER_SEC),
         .cout "s\n" ],
       0) := by
  simp [main, flagLoop_four]

/-- An argument list of length four is a list of four strings. -/
theorem args_of_argc_five (args : List String) (h : args.length + 1 = 5) :
    ∃ a1 a2 a3 a4, args = [a1, a2, a3, a4] := by
  match args, h with
  | [a1, a2, a3, a4], _ => exact ⟨a1, a2, a3, a4, rfl⟩

/-! ### The claims on the driver -/

/-- C1: for every invocation whose argument count differs from 5, `main` prints
the usage banner and nothing else, calls none of the stages of `Prune`, and
returns exit status 0. -/
theorem main_usage_when_argc_ne_5 (argv0 : String) (args : List String)
    (rmcnt startt endt CLOCKS_PER_SEC : Int) (hargc : args.length + 1 ≠ 5) :
    main argv0 args rmcnt startt endt CLOCKS_PER_SEC =
        ([ .cout "************************************************************************\n",
           .cout "    Usage: ", .cout argv0, .cout " -i Allele.ctg.table -b sorted.bam\n",
           .cout "      -h : help and usage.\n",
           .cout "      -i : Allele.ctg.table\n",
           .cout "      -b : sorted.bam\n",
           .cout "************************************************************************\n" ],
         0) ∧
      stageCalls (main argv0 args rmcnt startt endt CLOCKS_PER_SEC) = [] ∧
      (main argv0 args rmcnt startt endt CLOCKS_PER_SEC).2 = 0 := by
  have hlen : ¬ args.length = 4 := fun h => hargc (by omega)
  simp [main, stageCalls, hlen, Event.isStage]

/-- Witness of C1: the invocation with the single argument `-h`. -/
theorem main_usage_when_argc_ne_5_witness :
    ["-h"].length + 1 ≠ 5 ∧
      stageCalls (main "ALLHiC_prune" ["-h"] 0 0 0 1000000) = [] :=
  ⟨by decide, (main_usage_when_argc_ne_5 "ALLHiC_prune" ["-h"] 0 0 0 1000000 (by decide)).2.1⟩

/-- C2 as stated fails: with the four arguments `x y z w` the argument count is
5, `main` calls `SetParameter` and the three later stages, and the arguments
contain neither `-i` nor `-b`; both parameters are the empty default. -/
theorem pipeline_runs_without_flags :
    ["x", "y", "z", "w"].length + 1 = 5 ∧
      stageCalls (main "ALLHiC_prune" ["x", "y", "z", "w"] 0 0 0 1000000) =
        [.SetParameter "" "", .GeneratePairsAndCtgs, .GenerateRemovedb, .CreatePrunedBam] ∧
      "-i" ∉ ["x", "y", "z", "w"] ∧ "-b" ∉ ["x", "y", "z", "w"] := by
  refine ⟨by decide, ?_, by decide, by decide⟩
  rw [main_four]
  decide

/-- C2, amended: with argument count 5 the pipeline always runs.  The table
passed to `SetParameter` is the value that follows the `-i` flag at position 3
or, when position 3 does not hold `-i`, the value that follows the `-i` flag at
position 1; it is the empty default only when neither position 1 nor position
3 holds `-i`.  The same holds for the bam file and the `-b` flag. -/
theorem pipeline_parameters_from_flags (argv0 : String) (args : List String)
    (rmcnt startt endt CLOCKS_PER_SEC : Int) (hargc : args.length + 1 = 5) :
    ∃ a1 a2 a3 a4 bamfile table,
      args = [a1, a2, a3, a4] ∧
      stageCalls (main argv0 args rmcnt startt endt CLOCKS_PER_SEC) =
        [.SetParameter bamfile table, .GeneratePairsAndCtgs, .GenerateRemovedb,
          .CreatePrunedBam] ∧
      (a3 = "-i" → table = a4) ∧
      (a3 ≠ "-i" → a1 = "-i" → table = a2) ∧
      (a1 ≠ "-i" → a3 ≠ "-i" → table = "") ∧
      (a3 = "-b" → bamfile = a4) ∧
      (a3 ≠ "-b" → a1 = "-b" → bamfile = a2) ∧
      (a1 ≠ "-b" → a3 ≠ "-b" → bamfile = "") := by
  obtain ⟨a1, a2, a3, a4, rfl⟩ := args_of_argc_five args hargc
  refine ⟨a1, a2, a3, a4, _, _, rfl, by rw [main_four]; rfl, ?_, ?_, ?_, ?_, ?_, ?_⟩
  · intro h3
    simp [h3]
  · intro h3 h1
    simp [h3, h1]
  · intro h1 h3
    simp [h3, h1]
  · intro h3
    simp [h3]
  · intro h3 h1
    simp [h3, h1]
  · intro h1 h3
    simp [h3, h1]

/-- Witness of the amended C2: in the regular invocation `-i t -b b` the
pipeline runs with bam file `b` and table `t`. -/
theorem pipeline_parameters_from_flags_witness :
    ["-i", "t", "-b", "b"].length + 1 = 5 ∧
      stageCalls (main "ALLHiC_prune" ["-i", "t", "-b", "b"] 0 0 0 1000000) =
        [.SetParameter "b" "t", .GeneratePairsAndCtgs, .GenerateRemovedb,
          .CreatePrunedBam] := by
  refine ⟨by decide, ?_⟩
  obtain ⟨a1, a2, a3, a4, bamfile, table, hargs, hcalls, _, ht, _, hb, _, _⟩ :=
    pipeline_parameters_from_flags "ALLHiC_prune" ["-i", "t", "-b", "b"] 0 0 0 1000000
      (by decide)
  simp only [List.cons.injEq, and_true] at hargs
  obtain ⟨h1, h2, h3, h4⟩ := hargs
  subst h1 h2 h3 h4
  rw [hcalls, ht (by decide) rfl, hb rfl]

/-- C3: with argument count 5, the trace of `main` ends with the call of
`CreatePrunedBam`, then the line `Removed <n> reads` whose number is the value
that call returned, then the second reading of the clock and the elapsed-time
line; the text `Removed ` is inserted nowhere before, so the line is printed
exactly once. -/
theorem removed_line_reports_CreatePrunedBam (argv0 : String) (args : List String)
    (rmcnt startt endt CLOCKS_PER_SEC : Int) (hargc : args.length + 1 = 5) :
    ∃ before,
      (main argv0 args rmcnt startt endt CLOCKS_PER_SEC).1 =
        before ++
          [ .CreatePrunedBam,
            .cout "Removed ", .coutNum rmcnt, .cout " reads", .endl,
            .clock,
            .cout "use time: ", .coutNum (Int.tdiv (endt - startt) CLOCKS_PER_SEC),
            .cout "s\n" ] ∧
      Event.cout "Removed " ∉ before ∧ Event.CreatePrunedBam ∉ before ∧
      (∀ n, Event.coutNum n ∉ before) ∧
      ((main argv0 args rmcnt startt endt CLOCKS_PER_SEC).1.filter
        (fun e => decide (e = Event.cout "Removed "))).length = 1 := by
  obtain ⟨a1, a2, a3, a4, rfl⟩ := args_of_argc_five args hargc
  rw [main_four]
  refine ⟨[ .clock,
         .SetParameter (if a3 = "-b" then a4 else if a1 = "-b" then a2 else "")
           (if a3 = "-i" then a4 else if a1 = "-i" then a2 else ""),
         .cout "Getting contig pairs", .endl,
         .GeneratePairsAndCtgs,
         .cout "Generating remove reads", .endl,
         .GenerateRemovedb,
         .cout "Creating prunned bam file", .endl ], by simp, by simp, by simp, by simp, ?_⟩
  simp [List.filter]

/-- Witness of C3: a run in which `CreatePrunedBam` returns 22. -/
theorem removed_line_reports_CreatePrunedBam_witness :
    ["-i", "t", "-b", "b"].length + 1 = 5 ∧
      ∃ before,
        (main "ALLHiC_prune" ["-i", "t", "-b", "b"] 22 0 3000000 1000000).1 =
          before ++
            [ .CreatePrunedBam,
              .cout "Removed ", .coutNum 22, .cout " reads", .endl,
              .clock,
              .cout "use time: ", .coutNum (Int.tdiv (3000000 - 0) 1000000),
              .cout "s\n" ] ∧
        Event.cout "Removed " ∉ before ∧ Event.CreatePrunedBam ∉ before ∧
        (∀ n, Event.coutNum n ∉ before) ∧
        ((main "ALLHiC_prune" ["-i", "t", "-b", "b"] 22 0 3000000 1000000).1.filter
          (fun e => decide (e = Event.cout "Removed "))).length = 1 :=
  ⟨by decide,
    removed_line_reports_CreatePrunedBam "ALLHiC_prune" ["-i", "t", "-b", "b"] 22 0 3000000
      1000000 (by decide)⟩

/-- C4: with argument count 5, the stage calls of `main` are, in this order and
once each, `SetParameter`, `GeneratePairsAndCtgs`, `GenerateRemovedb`,
`CreatePrunedBam`; in particular `CreatePrunedBam` is called after the calls
of `GeneratePairsAndCtgs` and `GenerateRemovedb`, and no stage is called
twice. -/
theorem stages_once_in_order (argv0 : String) (args : List String)
    (rmcnt startt endt CLOCKS_PER_SEC : Int) (hargc : args.length + 1 = 5) :
    ∃ bamfile table,
      stageCalls (main argv0 args rmcnt startt endt CLOCKS_PER_SEC) =
        [.SetParameter bamfile table, .GeneratePairsAndCtgs, .GenerateRemovedb,
          .CreatePrunedBam] := by
  obtain ⟨a1, a2, a3, a4, rfl⟩ := args_of_argc_five args hargc
  exact ⟨_, _, by rw [main_four]; rfl⟩

/-- Witness of C4: the regular invocation `-b b -i t`. -/
theorem stages_once_in_order_witness :
    ["-b", "b", "-i", "t"].length + 1 = 5 ∧
      ∃ bamfile table,
        stageCalls (main "ALLHiC_prune" ["-b", "b", "-i", "t"] 0 0 0 1000000) =
          [.SetParameter bamfile table, .GeneratePairsAndCtgs, .GenerateRemovedb,
            .CreatePrunedBam] :=
  ⟨by decide, stages_once_in_order "ALLHiC_prune" ["-b", "b", "-i", "t"] 0 0 0 1000000 (by decide)⟩

/-- C5 fails on the code: with the arguments `-h x -b y` the argument count is
5, so `main` prints no usage banner and runs the whole pipeline, with bam file
`y` and the empty table name. -/
theorem help_flag_with_four_arguments_runs_pipeline :
    main "ALLHiC_prune" ["-h", "x", "-b", "y"] 0 0 0 1000000 =
      ([ .clock,
         .SetParameter "y" "",
         .cout "Getting contig pairs", .endl,
         .GeneratePairsAndCtgs,
         .cout "Generating remove reads", .endl,
         .GenerateRemovedb,
         .cout "Creating prunned bam file", .endl,
         .CreatePrunedBam,
         .cout "Removed ", .coutNum 0, .cout " reads", .endl,
         .clock,
         .cout "use time: ", .coutNum 0, .cout "s\n" ],
       0) := by
  rw [main_four]
  decide

/-- C6: for all strings `T` and `B` the invocations `-i T -b B` and
`-b B -i T` produce the same trace, in which `SetParameter` is called with
`B` as its first argument (the bam file) and `T` as its second (the table). -/
theorem flag_order_independent (argv0 T B : String)
    (rmcnt startt endt CLOCKS_PER_SEC : Int) :
    main argv0 ["-i", T, "-b", B] rmcnt startt endt CLOCKS_PER_SEC =
        main argv0 ["-b", B, "-i", T] rmcnt startt endt CLOCKS_PER_SEC ∧
      stageCalls (main argv0 ["-i", T, "-b", B] rmcnt startt endt CLOCKS_PER_SEC) =
        [.SetParameter B T, .GeneratePairsAndCtgs, .GenerateRemovedb, .CreatePrunedBam] ∧
      stageCalls (main argv0 ["-b", B, "-i", T] rmcnt startt endt CLOCKS_PER_SEC) =
        [.SetParameter B T, .GeneratePairsAndCtgs, .GenerateRemovedb, .CreatePrunedBam] := by
  simp [main_four, stageCalls, Event.isStage]

/-- C10: for every argument vector `a1 a2 a3 a4` the pipeline is run, the table
passed to `SetParameter` is `a4` if `a3` is `-i`, otherwise `a2` if `a1` is
`-i`, otherwise empty, and the bam file is `a4` if `a3` is `-b`, otherwise
`a2` if `a1` is `-b`, otherwise empty; `a2` and `a4` are not interpreted.  A
repeated flag keeps the last value and leaves the other parameter empty. -/
theorem flags_at_odd_positions (argv0 a1 a2 a3 a4 : String)
    (rmcnt startt endt CLOCKS_PER_SEC : Int) :
    stageCalls (main argv0 [a1, a2, a3, a4] rmcnt startt endt CLOCKS_PER_SEC) =
        [ .SetParameter (if a3 = "-b" then a4 else if a1 = "-b" then a2 else "")
            (if a3 = "-i" then a4 else if a1 = "-i" then a2 else ""),
          .GeneratePairsAndCtgs, .GenerateRemovedb, .CreatePrunedBam ] ∧
      stageCalls (main argv0 ["-i", a2, "-i", a4] rmcnt startt endt CLOCKS_PER_SEC) =
        [.SetParameter "" a4, .GeneratePairsAndCtgs, .GenerateRemovedb, .CreatePrunedBam] ∧
      stageCalls (main argv0 ["-b", a2, "-b", a4] rmcnt startt endt CLOCKS_PER_SEC) =
        [.SetParameter a4 "", .GeneratePairsAndCtgs, .GenerateRemovedb, .CreatePrunedBam] := by
  simp [main_four, stageCalls, Event.isStage]

/-! ### Lemmas on the pruning pipeline -/

section PipelineLemmas

variable {κ : Type} [LinearOrder κ]

theorem rewrite_fst (removal : List (Sym2 κ)) (stream : List (AlignmentRecord κ)) :
    (AlignmentRewriter.rewrite removal stream).1 =
      stream.filter (fun r => !AlignmentRewriter.drops removal r) := by
  induction stream with
  | nil => rfl
  | cons r rest ih =>
    simp only [AlignmentRewriter.rewrite, List.filter_cons]
    cases h : AlignmentRewriter.drops removal r <;> simp [ih]

theorem rewrite_count (removal : List (Sym2 κ)) (stream : List (AlignmentRecord κ)) :
    (AlignmentRewriter.rewrite removal stream).2 +
      (AlignmentRewriter.rewrite removal stream).1.length = stream.length := by
  induction stream with
  | nil => rfl
  | cons r rest ih =>
    simp only [AlignmentRewriter.rewrite, List.length_cons]
    cases h : AlignmentRewriter.drops removal r <;> simp <;> omega

theorem mem_rewrite {removal : List (Sym2 κ)} {stream : List (AlignmentRecord κ)}
    {r : AlignmentRecord κ} :
    r ∈ (AlignmentRewriter.rewrite removal stream).1 ↔
      r ∈ stream ∧ AlignmentRewriter.drops removal r = false := by
  rw [rewrite_fst]
  simp [List.mem_filter]

theorem drops_of_link {removal : List (Sym2 κ)} {r : AlignmentRecord κ} {p : Sym2 κ}
    (h : r.link = some p) : AlignmentRewriter.drops removal r = decide (p ∈ removal) := by
  simp [AlignmentRewriter.drops, h]

theorem link_eq_some_iff {r : AlignmentRecord κ} {a b : κ} (hab : a ≠ b) :
    r.link = some s(a, b) ↔ (r.ref = a ∧ r.mateRef = b) ∨ (r.ref = b ∧ r.mateRef = a) := by
  unfold AlignmentRecord.link
  by_cases h : r.ref = r.mateRef
  · simp only [h, if_true]
    constructor
    · intro h'; cases h'
    · rintro (⟨h1, h2⟩ | ⟨h1, h2⟩)
      · exact absurd (h1.symm.trans h2) hab
      · exact absurd (h2.symm.trans h1) hab
  · simp only [h, if_false, Option.some.injEq, Sym2.eq_iff]

theorem load_eq_ok {source : List (List κ)} {tbl : AlleleTable κ}
    (h : AlleleTable.load source = .ok tbl) :
    tbl.groups = source ∧ source.Pairwise (fun g h => ∀ c ∈ g, c ∉ h) := by
  unfold AlleleTable.load at h
  split at h
  · rename_i hp
    cases h
    exact ⟨rfl, hp⟩
  · cases h

/-- In a loaded table a contig lies in at most one group. -/
theorem group_unique {source : List (List κ)} {tbl : AlleleTable κ}
    (h : AlleleTable.load source = .ok tbl) {G H : List κ} (hG : G ∈ tbl.groups)
    (hH : H ∈ tbl.groups) {c : κ} (hcG : c ∈ G) (hcH : c ∈ H) : G = H := by
  obtain ⟨hg, hp⟩ := load_eq_ok h
  rw [hg] at hG hH
  by_contra hne
  have hsym : Symmetric (fun g h : List κ => ∀ c ∈ g, c ∉ h) := by
    intro g h hgh c hc hc'
    exact hgh c hc' hc
  exact hp.forall hsym hG hH hne c hcG hcH

theorem groupIndex_some {c : κ} {gs : List (List κ)} {i : Nat}
    (h : groupIndex c gs = some i) : ∃ g, gs[i]? = some g ∧ c ∈ g := by
  induction gs generalizing i with
  | nil => simp [groupIndex] at h
  | cons g rest ih =>
    unfold groupIndex at h
    split at h
    · rename_i hc
      cases h
      exact ⟨g, by simp, hc⟩
    · cases hr : groupIndex c rest with
      | none => simp [hr] at h
      | some j =>
        simp [hr] at h
        subst h
        obtain ⟨g', hg', hc'⟩ := ih hr
        exact ⟨g', by simpa using hg', hc'⟩

/-- Two contigs of the same group are members of one group of the table. -/
theorem sameGroup_members {tbl : AlleleTable κ} {a b : κ}
    (h : tbl.sameGroup a b = true) : ∃ G ∈ tbl.groups, a ∈ G ∧ b ∈ G := by
  unfold AlleleTable.sameGroup AlleleTable.groupOf at h
  cases ha : groupIndex a tbl.groups with
  | none => simp [ha] at h
  | some i =>
    cases hb : groupIndex b tbl.groups with
    | none => simp [ha, hb] at h
    | some j =>
      simp [ha, hb] at h
      subst h
      obtain ⟨g, hg, hag⟩ := groupIndex_some ha
      obtain ⟨g', hg', hbg⟩ := groupIndex_some hb
      rw [hg] at hg'
      cases hg'
      exact ⟨g, List.mem_iff_getElem?.2 ⟨_, hg⟩, hag, hbg⟩

theorem mem_intraGroup {G : List κ} {p : Sym2 κ} :
    p ∈ intraGroup G ↔ ∃ a ∈ G, ∃ b ∈ G, b ≠ a ∧ s(a, b) = p := by
  simp only [intraGroup, List.mem_flatMap, List.mem_map, List.mem_filter, decide_eq_true_eq]
  constructor
  · rintro ⟨a, ha, b, ⟨hb, hne⟩, rfl⟩
    exact ⟨a, ha, b, hb, hne, rfl⟩
  · rintro ⟨a, ha, b, hb, hne, rfl⟩
    exact ⟨a, ha, b, ⟨hb, hne⟩, rfl⟩

theorem mem_decide {tbl : AlleleTable κ} {idx : ContigPairIndex κ} {p : Sym2 κ} :
    p ∈ PruneDecisionEngine.decide tbl idx ↔
      ∃ G ∈ tbl.groups,
        p ∈ intraGroup G ∨ ∃ P ∈ idx.contigs, P ∉ G ∧ p ∈ crossGroup idx G P := by
  simp only [PruneDecisionEngine.decide, List.mem_flatMap, List.mem_append, List.mem_filter,
    decide_eq_true_eq]
  constructor
  · rintro ⟨G, hG, h | ⟨P, ⟨hP, hPG⟩, hp⟩⟩
    · exact ⟨G, hG, Or.inl h⟩
    · exact ⟨G, hG, Or.inr ⟨P, hP, hPG, hp⟩⟩
  · rintro ⟨G, hG, h | ⟨P, hP, hPG, hp⟩⟩
    · exact ⟨G, hG, Or.inl h⟩
    · exact ⟨G, hG, Or.inr ⟨P, ⟨hP, hPG⟩, hp⟩⟩

/-- The intra-group rule: two distinct members of a group form a removed
pair. -/
theorem sameGroup_mem_decide {tbl : AlleleTable κ} (idx : ContigPairIndex κ) {a b : κ}
    (h : tbl.sameGroup a b = true) (hne : a ≠ b) :
    s(a, b) ∈ PruneDecisionEngine.decide tbl idx := by
  obtain ⟨G, hG, ha, hb⟩ := sameGroup_members h
  exact mem_decide.2 ⟨G, hG, Or.inl (mem_intraGroup.2 ⟨a, ha, b, hb, fun e => hne e.symm, rfl⟩)⟩

theorem countOf_bump (p q : Sym2 κ) (counts : List (Sym2 κ × Nat)) :
    countOf q (bump p counts) = if q = p then countOf p counts + 1 else countOf q counts := by
  induction counts with
  | nil =>
    by_cases h : q = p
    · simp [bump, countOf, h]
    · have h' : ¬ p = q := fun e => h e.symm
      simp [bump, countOf, h, h']
  | cons e rest ih =>
    obtain ⟨k, n⟩ := e
    by_cases hk : k = p
    · subst hk
      by_cases h : q = k
      · subst h
        simp [bump, countOf]
      · have h' : ¬ k = q := fun e => h e.symm
        simp [bump, countOf, h, h']
    · by_cases h : q = p
      · subst h
        simp [bump, countOf, hk, ih]
      · by_cases hkq : k = q
        · simp [bump, countOf, hk, h, hkq]
        · simp [bump, countOf, hk, h, hkq, ih]

theorem step_closed (st : BuildState κ) (r : AlignmentRecord κ) (h : IndexClosed st.index) :
    IndexClosed (ContigPairIndex.step st r).index := by
  unfold ContigPairIndex.step
  split
  · split
    · exact h
    · rename_i p hp
      split
      · intro a b hpos
        simp only [ContigPairIndex.linkCount] at hpos
        rw [countOf_bump] at hpos
        have hlink : p = s(r.ref, r.mateRef) := by
          unfold AlignmentRecord.link at hp
          split at hp
          · cases hp
          · cases hp; rfl
        by_cases hab : s(a, b) = p
        · rw [hlink, Sym2.eq_iff] at hab
          rcases hab with ⟨rfl, rfl⟩ | ⟨rfl, rfl⟩ <;> simp [List.mem_insert_iff]
        · rw [if_neg hab] at hpos
          obtain ⟨ha, hb⟩ := h a b hpos
          simp [List.mem_insert_iff, ha, hb]
      · exact h
  · exact h

theorem foldl_step_closed (stream : List (AlignmentRecord κ)) (st : BuildState κ)
    (h : IndexClosed st.index) :
    IndexClosed (stream.foldl ContigPairIndex.step st).index := by
  induction stream generalizing st with
  | nil => exact h
  | cons r rest ih => exact ih _ (step_closed st r h)

theorem build_closed (stream : List (AlignmentRecord κ)) :
    IndexClosed (ContigPairIndex.build stream) := by
  apply foldl_step_closed
  intro a b hpos
  simp [ContigPairIndex.linkCount, countOf] at hpos

theorem bestSibling_mem {idx : ContigPairIndex κ} {P : κ} {l : List κ} {Y : κ}
    (h : bestSibling idx P l = some Y) : Y ∈ l := by
  induction l generalizing Y with
  | nil => simp [bestSibling] at h
  | cons X rest ih =>
    unfold bestSibling at h
    cases hr : bestSibling idx P rest with
    | none =>
      simp [hr] at h
      simp [h]
    | some Z =>
      simp only [hr] at h
      split at h
      · cases h
        exact List.mem_cons_of_mem _ (ih hr)
      · cases h
        exact List.mem_cons_self _ _

theorem bestSibling_eq_none {idx : ContigPairIndex κ} {P : κ} {l : List κ}
    (h : bestSibling idx P l = none) : l = [] := by
  cases l with
  | nil => rfl
  | cons X rest =>
    unfold bestSibling at h
    cases hr : bestSibling idx P rest with
    | none => simp [hr] at h
    | some Z =>
      simp only [hr] at h
      split at h <;> cases h

theorem preferred_iff {idx : ContigPairIndex κ} {P X Y : κ} :
    preferred idx P X Y = true ↔
      idx.linkCount s(Y, P) < idx.linkCount s(X, P) ∨
        (idx.linkCount s(X, P) = idx.linkCount s(Y, P) ∧ X < Y) := by
  simp [preferred]

theorem preferred_asymm {idx : ContigPairIndex κ} {P X Y : κ}
    (h : preferred idx P X Y = true) : preferred idx P Y X = false := by
  rw [Bool.eq_false_iff]
  intro h'
  rw [preferred_iff] at h h'
  rcases h with h | ⟨h, hlt⟩ <;> rcases h' with h' | ⟨h', hlt'⟩
  · omega
  · omega
  · omega
  · exact lt_asymm hlt hlt'

/-- A sibling that comes before every other sibling of the list in the order
of the cross-group rule is the one retained. -/
theorem bestSibling_eq_of_preferred {idx : ContigPairIndex κ} {P A : κ} {l : List κ}
    (hA : A ∈ l) (hbest : ∀ X ∈ l, X ≠ A → preferred idx P A X = true) :
    bestSibling idx P l = some A := by
  induction l with
  | nil => cases hA
  | cons X rest ih =>
    unfold bestSibling
    cases hr : bestSibling idx P rest with
    | none =>
      have := bestSibling_eq_none hr
      subst this
      simp at hA
      simp [hA]
    | some Y =>
      simp only []
      have hY : Y ∈ rest := bestSibling_mem hr
      by_cases hAr : A ∈ rest
      · have hYA : Y = A := by
          have := ih hAr (fun Z hZ hne => hbest Z (List.mem_cons_of_mem _ hZ) hne)
          rw [hr] at this
          exact Option.some.inj this
        subst hYA
        by_cases hX : X = Y
        · subst hX
          split <;> rfl
        · rw [if_pos (hbest X (List.mem_cons_self _ _) hX)]
      · have hXA : X = A := by
          rcases List.mem_cons.1 hA with h | h
          · exact h.symm
          · exact absurd h hAr
        subst hXA
        have hYX : Y ≠ X := fun e => hAr (e ▸ hY)
        have := preferred_asymm (hbest Y (List.mem_cons_of_mem _ hY) hYX)
        rw [this]
        simp

theorem mem_crossGroup {idx : ContigPairIndex κ} {G : List κ} {P : κ} {p : Sym2 κ} :
    p ∈ crossGroup idx G P ↔
      ∃ best,
        bestSibling idx P (G.filter (fun X => decide (0 < idx.linkCount s(X, P)))) = some best ∧
        ∃ X ∈ G, 0 < idx.linkCount s(X, P) ∧ X ≠ best ∧ s(X, P) = p := by
  unfold crossGroup
  simp only []
  cases hb : bestSibling idx P (G.filter (fun X => decide (0 < idx.linkCount s(X, P)))) with
  | none => simp
  | some best =>
    simp only [List.mem_map, List.mem_filter, decide_eq_true_eq, Option.some.injEq,
      exists_eq_left']
    constructor
    · rintro ⟨X, ⟨⟨hX, hpos⟩, hne⟩, rfl⟩
      exact ⟨X, hX, hpos, hne, rfl⟩
    · rintro ⟨X, hX, hpos, hne, rfl⟩
      exact ⟨X, ⟨⟨hX, hpos⟩, hne⟩, rfl⟩

theorem prune_eq {source : List (List κ)} {stream : List (AlignmentRecord κ)}
    {tbl : AlleleTable κ} {out : List (AlignmentRecord κ)} {removed : Nat}
    (hload : AlleleTable.load source = .ok tbl) (hrun : prune source stream = .ok (out, removed)) :
    out = (AlignmentRewriter.rewrite
        (PruneDecisionEngine.decide tbl (ContigPairIndex.build stream)) stream).1 ∧
      removed = (AlignmentRewriter.rewrite
        (PruneDecisionEngine.decide tbl (ContigPairIndex.build stream)) stream).2 := by
  unfold prune at hrun
  rw [hload] at hrun
  simp only [Except.ok.injEq] at hrun
  rw [hrun]
  exact ⟨rfl, rfl⟩

theorem preferred_irrefl {idx : ContigPairIndex κ} {P X : κ} :
    preferred idx P X X = false := by
  rw [Bool.eq_false_iff]
  intro h
  rcases preferred_iff.1 h with h | ⟨_, h⟩
  · exact lt_irrefl _ h
  · exact lt_irrefl _ h

/-- The order of the cross-group rule is negatively transitive: a sibling that
comes before `Z` comes before `Y` or `Y` comes before `Z`. -/
theorem preferred_of_not {idx : ContigPairIndex κ} {P X Y Z : κ}
    (hXZ : preferred idx P X Z = true) (hXY : preferred idx P X Y = false) :
    preferred idx P Y Z = true := by
  rw [preferred_iff] at hXZ ⊢
  have hXY' := (Bool.eq_false_iff.1 hXY)
  rw [Ne, preferred_iff, not_or, not_and] at hXY'
  obtain ⟨h1, h2⟩ := hXY'
  rcases hXZ with h | ⟨h, hlt⟩
  · left
    omega
  · by_cases hc : idx.linkCount s(X, P) = idx.linkCount s(Y, P)
    · right
      refine ⟨by omega, ?_⟩
      exact lt_of_le_of_lt (not_lt.1 (h2 hc)) hlt
    · left
      omega

/-- No sibling of the list comes before the retained one. -/
theorem bestSibling_not_beaten {idx : ContigPairIndex κ} {P : κ} {l : List κ} {Y : κ}
    (h : bestSibling idx P l = some Y) : ∀ X ∈ l, preferred idx P X Y = false := by
  induction l generalizing Y with
  | nil => simp [bestSibling] at h
  | cons X0 rest ih =>
    unfold bestSibling at h
    cases hr : bestSibling idx P rest with
    | none =>
      have hnil := bestSibling_eq_none hr
      subst hnil
      simp [hr] at h
      subst h
      intro X hX
      simp at hX
      subst hX
      exact preferred_irrefl
    | some Z =>
      simp only [hr] at h
      intro X hX
      by_cases hZ : preferred idx P Z X0 = true
      · rw [if_pos hZ] at h
        cases h
        rcases List.mem_cons.1 hX with rfl | hX
        · exact preferred_asymm hZ
        · exact ih hr X hX
      · rw [if_neg hZ] at h
        cases h
        rcases List.mem_cons.1 hX with rfl | hX
        · exact preferred_irrefl
        · cases hXY : preferred idx P X X0 with
          | false => rfl
          | true =>
            exact absurd (preferred_of_not hXY (ih hr X hX)) hZ

/-- The cross-group rule marks the link of a sibling with the partner when
another sibling of the group has more links with that partner. -/
theorem cross_marks {tbl : AlleleTable κ} {idx : ContigPairIndex κ} (hidx : IndexClosed idx)
    {G : List κ} {A B P : κ} (hG : G ∈ tbl.groups) (hA : A ∈ G) (hB : B ∈ G) (hP : P ∉ G)
    (hlt : idx.linkCount s(B, P) < idx.linkCount s(A, P))
    (hposB : 0 < idx.linkCount s(B, P)) :
    s(B, P) ∈ PruneDecisionEngine.decide tbl idx := by
  have hposA : 0 < idx.linkCount s(A, P) := lt_trans hposB hlt
  have hAl : A ∈ G.filter (fun X => decide (0 < idx.linkCount s(X, P))) := by
    simp [List.mem_filter, hA, hposA]
  cases hb : bestSibling idx P (G.filter (fun X => decide (0 < idx.linkCount s(X, P)))) with
  | none =>
    rw [bestSibling_eq_none hb] at hAl
    cases hAl
  | some best =>
    have hne : B ≠ best := by
      rintro rfl
      have h1 := bestSibling_not_beaten hb A hAl
      have h2 : preferred idx P A B = true := preferred_iff.2 (Or.inl hlt)
      rw [h1] at h2
      cases h2
    exact mem_decide.2 ⟨G, hG, Or.inr ⟨P, (hidx B P hposB).2, hP,
      mem_crossGroup.2 ⟨best, hb, B, hB, hposB, hne, rfl⟩⟩⟩

/-- No rule marks the link between a contig and a partner outside its group
when each of the two is the best of its own group for the other. -/
theorem best_not_marked {source : List (List κ)} {tbl : AlleleTable κ}
    (hload : AlleleTable.load source = .ok tbl) {idx : ContigPairIndex κ}
    {G : List κ} {A P : κ} (hG : G ∈ tbl.groups) (hA : A ∈ G) (hP : P ∉ G)
    (hbestA : ∀ X ∈ G, X ≠ A → preferred idx P A X = true)
    (hbestP : ∀ H ∈ tbl.groups, P ∈ H → ∀ Q ∈ H, Q ≠ P → preferred idx A P Q = true) :
    s(A, P) ∉ PruneDecisionEngine.decide tbl idx := by
  intro hmem
  obtain ⟨H, hH, hintra | ⟨P', _, hP'H, hcross⟩⟩ := mem_decide.1 hmem
  · obtain ⟨a, ha, b, hb, _, hab⟩ := mem_intraGroup.1 hintra
    rw [Sym2.eq_iff] at hab
    rcases hab with ⟨rfl, rfl⟩ | ⟨rfl, rfl⟩
    · exact hP (group_unique hload hG hH hA ha ▸ hb)
    · exact hP (group_unique hload hG hH hA hb ▸ ha)
  · obtain ⟨best, hbest, X, hX, hpos, hne, hXP⟩ := mem_crossGroup.1 hcross
    rw [Sym2.eq_iff] at hXP
    rcases hXP with ⟨rfl, rfl⟩ | ⟨rfl, rfl⟩
    · have hGH : G = H := group_unique hload hG hH hA hX
      subst hGH
      have : bestSibling idx P' (G.filter (fun X => decide (0 < idx.linkCount s(X, P')))) =
          some X := by
        apply bestSibling_eq_of_preferred
        · simp [List.mem_filter, hX, hpos]
        · intro Y hY hYne
          exact hbestA Y (List.mem_filter.1 hY).1 hYne
      rw [this] at hbest
      exact hne (Option.some.inj hbest)
    · have : bestSibling idx P' (H.filter (fun Y => decide (0 < idx.linkCount s(Y, P')))) =
          some X := by
        apply bestSibling_eq_of_preferred
        · simp [List.mem_filter, hX, hpos]
        · intro Y hY hYne
          exact hbestP H hH hX Y (List.mem_filter.1 hY).1 hYne
      rw [this] at hbest
      exact hne (Option.some.inj hbest)

/-! ### The claims on the pruning pipeline -/

/-- C9 (conservation): for every run that produces a pruned stream, the removed
count plus the number of alignment records in the pruned stream equals the
number of alignment records of the input stream. -/
theorem conservation (source : List (List κ)) (stream out : List (AlignmentRecord κ))
    (removed : Nat) (hrun : prune source stream = .ok (out, removed)) :
    removed + out.length = stream.length := by
  unfold prune at hrun
  cases hload : AlleleTable.load source with
  | error e =>
    rw [hload] at hrun
    cases hrun
  | ok tbl =>
    obtain ⟨hout, hremoved⟩ := prune_eq hload (by unfold prune; exact hrun)
    rw [hout, hremoved]
    exact rewrite_count _ _

/-- C8 (no intra-group survivors): for contigs `A` and `B` that the loaded
allele table places in the same group, the pruned stream of the run contains no
alignment whose contig pair is `(A,B)`; for distinct `A` and `B` that is: no
retained alignment has its reference on one of the two and its mate on the
other. -/
theorem no_intra_group_survivors (source : List (List κ)) (tbl : AlleleTable κ)
    (stream out : List (AlignmentRecord κ)) (removed : Nat) (A B : κ)
    (hload : AlleleTable.load source = .ok tbl)
    (hrun : prune source stream = .ok (out, removed))
    (hsame : tbl.sameGroup A B = true) :
    (∀ r ∈ out, r.link ≠ some s(A, B)) ∧
      (A ≠ B → ∀ r ∈ out, ¬ ((r.ref = A ∧ r.mateRef = B) ∨ (r.ref = B ∧ r.mateRef = A))) := by
  have hmain : ∀ r ∈ out, r.link ≠ some s(A, B) := by
    intro r hr hlink
    have hne : A ≠ B := by
      rintro rfl
      unfold AlignmentRecord.link at hlink
      split at hlink
      · cases hlink
      · rename_i hrm
        simp only [Option.some.injEq, Sym2.eq_iff] at hlink
        rcases hlink with ⟨h1, h2⟩ | ⟨h1, h2⟩ <;> exact hrm (h1.trans h2.symm)
    rw [(prune_eq hload hrun).1] at hr
    obtain ⟨_, hkeep⟩ := mem_rewrite.1 hr
    rw [drops_of_link hlink] at hkeep
    exact (of_decide_eq_false hkeep) (sameGroup_mem_decide _ hsame hne)
  exact ⟨hmain, fun hne r hr hlink => hmain r hr ((link_eq_some_iff hne).2 hlink)⟩

/-- C7, amended (best-link preservation): in a run with a loaded allele table,
let `G` be a group containing `A` and `B` and `P` a contig outside `G` with
`linkCount(A,P) > linkCount(B,P)`.  If `B` has at least one link with `P`, then
`(B,P)` is in the removal set and every `B`-`P` alignment of the stream is
dropped.  If `A` is the member of `G` that the cross-group rule retains for `P`
(every other member has fewer links with `P`, or as many and a larger
identifier) and `P` is in the same way the member that its own group, if it
has one, retains for `A`, then `(A,P)` is not in the removal set and every
`A`-`P` alignment of the stream is retained.  In the concrete scenario (the
only group is `{A,B}`, `linkCount(A,P)=10`, `linkCount(B,P)=4`,
`linkCount(A,B)=7`, no other pair has links) the removal set is exactly
`{(A,B),(B,P)}`. -/
theorem best_link_preservation (source : List (List κ)) (tbl : AlleleTable κ)
    (stream out : List (AlignmentRecord κ)) (removed : Nat)
    (idx : ContigPairIndex κ) (removal : List (Sym2 κ)) (G : List κ) (A B P : κ)
    (hload : AlleleTable.load source = .ok tbl)
    (hidx : idx = ContigPairIndex.build stream)
    (hremoval : removal = PruneDecisionEngine.decide tbl idx)
    (hrun : prune source stream = .ok (out, removed))
    (hG : G ∈ tbl.groups) (hA : A ∈ G) (hB : B ∈ G) (hP : P ∉ G)
    (hlt : idx.linkCount s(B, P) < idx.linkCount s(A, P)) :
    (0 < idx.linkCount s(B, P) →
        s(B, P) ∈ removal ∧
        ∀ r ∈ stream, (r.ref = B ∧ r.mateRef = P) ∨ (r.ref = P ∧ r.mateRef = B) → r ∉ out) ∧
      ((∀ X ∈ G, X ≠ A →
          idx.linkCount s(X, P) < idx.linkCount s(A, P) ∨
            (idx.linkCount s(A, P) = idx.linkCount s(X, P) ∧ A < X)) →
        (∀ H ∈ tbl.groups, P ∈ H → ∀ Q ∈ H, Q ≠ P →
          idx.linkCount s(Q, A) < idx.linkCount s(P, A) ∨
            (idx.linkCount s(P, A) = idx.linkCount s(Q, A) ∧ P < Q)) →
        s(A, P) ∉ removal ∧
        ∀ r ∈ stream, (r.ref = A ∧ r.mateRef = P) ∨ (r.ref = P ∧ r.mateRef = A) → r ∈ out) ∧
      (tbl.groups = [[A, B]] → idx.linkCount s(A, P) = 10 → idx.linkCount s(B, P) = 4 →
        idx.linkCount s(A, B) = 7 →
        (∀ p, 0 < idx.linkCount p → p = s(A, P) ∨ p = s(B, P) ∨ p = s(A, B)) →
        ∀ p, p ∈ removal ↔ p = s(A, B) ∨ p = s(B, P)) := by
  have hcl : IndexClosed idx := hidx ▸ build_closed stream
  have hBA : B ≠ A := by
    rintro rfl
    exact lt_irrefl _ hlt
  have hAP : A ≠ P := fun e => hP (e ▸ hA)
  have hBP : B ≠ P := fun e => hP (e ▸ hB)
  have hin : 0 < idx.linkCount s(B, P) → s(B, P) ∈ removal :=
    fun hpos => hremoval ▸ cross_marks hcl hG hA hB hP hlt hpos
  have hout_eq : out = (AlignmentRewriter.rewrite removal stream).1 := by
    rw [hremoval, hidx]
    exact (prune_eq hload hrun).1
  refine ⟨?_, ?_, ?_⟩
  · intro hpos
    refine ⟨hin hpos, ?_⟩
    intro r _ hlink hr
    rw [hout_eq] at hr
    have hkeep := (mem_rewrite.1 hr).2
    rw [drops_of_link ((link_eq_some_iff hBP).2 hlink)] at hkeep
    exact (of_decide_eq_false hkeep) (hin hpos)
  · intro hbestA hbestP
    have hprefA : ∀ X ∈ G, X ≠ A → preferred idx P A X = true :=
      fun X hX hne => preferred_iff.2 (hbestA X hX hne)
    have hprefP : ∀ H ∈ tbl.groups, P ∈ H → ∀ Q ∈ H, Q ≠ P → preferred idx A P Q = true :=
      fun H hH hPH Q hQ hne => preferred_iff.2 (hbestP H hH hPH Q hQ hne)
    have hout : s(A, P) ∉ removal :=
      hremoval ▸ best_not_marked hload hG hA hP hprefA hprefP
    refine ⟨hout, ?_⟩
    intro r hr hlink
    rw [hout_eq]
    refine mem_rewrite.2 ⟨hr, ?_⟩
    rw [drops_of_link ((link_eq_some_iff hAP).2 hlink)]
    exact decide_eq_false hout
  · intro hgroups _ hB4 _ hclosed p
    have hposB : 0 < idx.linkCount s(B, P) := by omega
    have hposA : 0 < idx.linkCount s(A, P) := lt_trans hposB hlt
    have hprefA : ∀ X ∈ [A, B], X ≠ A → preferred idx P A X = true := by
      intro X hX hne
      simp only [List.mem_cons, List.mem_singleton, List.not_mem_nil, or_false] at hX
      rcases hX with rfl | rfl
      · exact absurd rfl hne
      · exact preferred_iff.2 (Or.inl hlt)
    constructor
    · intro hp
      rw [hremoval] at hp
      obtain ⟨H, hH, hintra | ⟨P', _, hP'H, hcross⟩⟩ := mem_decide.1 hp
      · left
        rw [hgroups] at hH
        have hHeq : H = [A, B] := by simpa using hH
        subst hHeq
        obtain ⟨a, ha, b, hb, hne, rfl⟩ := mem_intraGroup.1 hintra
        simp only [List.mem_cons, List.mem_singleton, List.not_mem_nil, or_false] at ha hb
        rcases ha with rfl | rfl <;> rcases hb with rfl | rfl
        · exact absurd rfl hne
        · rfl
        · exact Sym2.eq_swap
        · exact absurd rfl hne
      · right
        rw [hgroups] at hH
        have hHeq : H = [A, B] := by simpa using hH
        subst hHeq
        obtain ⟨best, hbest, X, hX, hposX, hne, rfl⟩ := mem_crossGroup.1 hcross
        have hP'A : P' ≠ A := fun e => hP'H (by simp [e])
        have hP'B : P' ≠ B := fun e => hP'H (by simp [e])
        have hP'eq : P' = P := by
          rcases hclosed _ hposX with h | h | h <;> rw [Sym2.eq_iff] at h
          · rcases h with ⟨_, h⟩ | ⟨_, h⟩
            · exact h
            · exact absurd h hP'A
          · rcases h with ⟨_, h⟩ | ⟨_, h⟩
            · exact h
            · exact absurd h hP'B
          · rcases h with ⟨_, h⟩ | ⟨_, h⟩
            · exact absurd h hP'B
            · exact absurd h hP'A
        subst hP'eq
        have hbestEq : bestSibling idx P'
            (List.filter (fun X => decide (0 < idx.linkCount s(X, P'))) [A, B]) = some A := by
          apply bestSibling_eq_of_preferred
          · simp [List.mem_filter, hposA]
          · intro Y hY hYne
            exact hprefA Y (List.mem_filter.1 hY).1 hYne
        rw [hbestEq] at hbest
        have hbestA' : best = A := (Option.some.inj hbest).symm
        subst hbestA'
        simp only [List.mem_cons, List.mem_singleton, List.not_mem_nil, or_false] at hX
        rcases hX with rfl | rfl
        · exact absurd rfl hne
        · rfl
    · rintro (rfl | rfl)
      · rw [hremoval]
        refine mem_decide.2 ⟨[A, B], by simp [hgroups], Or.inl (mem_intraGroup.2 ?_)⟩
        exact ⟨A, by simp, B, by simp, hBA, rfl⟩
      · exact hin hposB

end PipelineLemmas

/-! ### Concrete runs -/

set_option maxRecDepth 100000 in
/-- The index of the concrete scenario: link counts 10, 4 and 7. -/
theorem scenario_counts :
    (ContigPairIndex.build scenarioStream).counts =
      [(s(2, 0), 10), (s(2, 1), 4), (s(1, 0), 7)] := by
  rfl

/-- In the concrete scenario no pair other than the three has links. -/
theorem scenario_closed (p : Sym2 Nat)
    (hp : 0 < (ContigPairIndex.build scenarioStream).linkCount p) :
    p = s(0, 2) ∨ p = s(1, 2) ∨ p = s(0, 1) := by
  unfold ContigPairIndex.linkCount at hp
  rw [scenario_counts] at hp
  unfold countOf countOf countOf countOf at hp
  split_ifs at hp with h1 h2 h3
  · exact Or.inl (h1 ▸ Sym2.eq_swap)
  · exact Or.inr (Or.inl (h2 ▸ Sym2.eq_swap))
  · exact Or.inr (Or.inr (h3 ▸ Sym2.eq_swap))
  · exact absurd hp (by decide)

set_option maxRecDepth 100000 in
/-- The run of the concrete scenario: the 20 alignments of the ten read pairs
between contigs 0 and 2 are retained, 22 alignments are removed. -/
theorem scenario_run :
    prune [[0, 1]] scenarioStream = .ok (readPairs "ac" 10 0 2, 22) := by
  rfl

set_option maxRecDepth 100000 in
/-- C7 as stated fails.  First run: the group is `{0,1,3}`, the partner 2 lies
outside it, contig 0 has more links with 2 than contig 1 has, and still the
pair `(0,2)` is in the removal set, because the sibling 3 has more links with
2; only the alignments between 3 and 2 are retained.  Second run: the group is
`{0,1}`, the partner 2 has a sibling 4 with more links with 0, and `(0,2)` is
in the removal set.  Third run: contig 1 has no counted link with 2, the pair
`(1,2)` is not in the removal set and the secondary alignment between 1 and 2
is retained. -/
theorem best_link_fails_as_stated :
    (AlleleTable.load [[0, 1, 3]] = .ok { groups := [[0, 1, 3]] } ∧
      (0 ∈ [0, 1, 3] ∧ 1 ∈ [0, 1, 3] ∧ 2 ∉ [0, 1, 3]) ∧
      (ContigPairIndex.build threeSiblingStream).linkCount s(1, 2) <
        (ContigPairIndex.build threeSiblingStream).linkCount s(0, 2) ∧
      s(0, 2) ∈ PruneDecisionEngine.decide { groups := [[0, 1, 3]] }
        (ContigPairIndex.build threeSiblingStream) ∧
      (prune [[0, 1, 3]] threeSiblingStream).toOption.map
          (fun res => (res.1.map (fun r => (r.ref, r.mateRef)), res.2)) =
        some ([(3, 2), (2, 3), (3, 2), (2, 3), (3, 2), (2, 3)], 6)) ∧
    (AlleleTable.load [[0, 1], [2, 4]] = .ok { groups := [[0, 1], [2, 4]] } ∧
      (0 ∈ [0, 1] ∧ 1 ∈ [0, 1] ∧ 2 ∉ [0, 1]) ∧
      (ContigPairIndex.build groupedPartnerStream).linkCount s(1, 2) <
        (ContigPairIndex.build groupedPartnerStream).linkCount s(0, 2) ∧
      s(0, 2) ∈ PruneDecisionEngine.decide { groups := [[0, 1], [2, 4]] }
        (ContigPairIndex.build groupedPartnerStream) ∧
      (prune [[0, 1], [2, 4]] groupedPartnerStream).toOption.map
          (fun res => (res.1.map (fun r => (r.ref, r.mateRef)), res.2)) =
        some ([(0, 4), (4, 0), (0, 4), (4, 0), (0, 4), (4, 0)], 6)) ∧
    (AlleleTable.load [[0, 1]] = .ok { groups := [[0, 1]] } ∧
      (0 ∈ [0, 1] ∧ 1 ∈ [0, 1] ∧ 2 ∉ [0, 1]) ∧
      (ContigPairIndex.build secondaryOnlyStream).linkCount s(1, 2) <
        (ContigPairIndex.build secondaryOnlyStream).linkCount s(0, 2) ∧
      s(1, 2) ∉ PruneDecisionEngine.decide { groups := [[0, 1]] }
        (ContigPairIndex.build secondaryOnlyStream) ∧
      (prune [[0, 1]] secondaryOnlyStream).toOption.map
          (fun res => (res.1.map (fun r => (r.ref, r.mateRef)), res.2)) =
        some ([(0, 2), (2, 0), (1, 2)], 0)) := by
  refine ⟨⟨rfl, by decide, by decide, by decide, by decide⟩,
    ⟨rfl, by decide, by decide, by decide, by decide⟩,
    ⟨rfl, by decide, by decide, by decide, by decide⟩⟩

set_option maxRecDepth 100000 in
/-- Witness of the amended C7: the concrete scenario, with contigs 0, 1, 2 for
`A`, `B`, `C`; `(1,2)` is removed, `(0,2)` is kept, the alignments between 0
and 2 are exactly the retained ones, and the removal set is exactly
`{(0,1),(1,2)}`. -/
theorem best_link_preservation_witness :
    (ContigPairIndex.build scenarioStream).linkCount s(0, 2) = 10 ∧
      (ContigPairIndex.build scenarioStream).linkCount s(1, 2) = 4 ∧
      (ContigPairIndex.build scenarioStream).linkCount s(0, 1) = 7 ∧
      (s(1, 2) ∈ PruneDecisionEngine.decide { groups := [[0, 1]] }
          (ContigPairIndex.build scenarioStream) ∧
        ∀ r ∈ scenarioStream, (r.ref = 1 ∧ r.mateRef = 2) ∨ (r.ref = 2 ∧ r.mateRef = 1) →
          r ∉ readPairs "ac" 10 0 2) ∧
      (s(0, 2) ∉ PruneDecisionEngine.decide { groups := [[0, 1]] }
          (ContigPairIndex.build scenarioStream) ∧
        ∀ r ∈ scenarioStream, (r.ref = 0 ∧ r.mateRef = 2) ∨ (r.ref = 2 ∧ r.mateRef = 0) →
          r ∈ readPairs "ac" 10 0 2) ∧
      (∀ p, p ∈ PruneDecisionEngine.decide { groups := [[0, 1]] }
          (ContigPairIndex.build scenarioStream) ↔ p = s(0, 1) ∨ p = s(1, 2)) :=
  have h := best_link_preservation [[0, 1]] { groups := [[0, 1]] } scenarioStream
    (readPairs "ac" 10 0 2) 22 (ContigPairIndex.build scenarioStream)
    (PruneDecisionEngine.decide { groups := [[0, 1]] } (ContigPairIndex.build scenarioStream))
    [0, 1] 0 1 2 rfl rfl rfl scenario_run (by decide) (by decide) (by decide) (by decide)
    (by decide)
  ⟨by decide, by decide, by decide, h.1 (by decide), h.2.1 (by decide) (by decide),
    h.2.2 rfl (by decide) (by decide) (by decide) scenario_closed⟩

/-- Witness of C8: in the concrete scenario contigs 0 and 1 are in the same
group, and no retained alignment links them. -/
theorem no_intra_group_survivors_witness :
    AlleleTable.sameGroup { groups := [[0, 1]] } 0 1 = true ∧
      (∀ r ∈ readPairs "ac" 10 0 2, r.link ≠ some s(0, 1)) ∧
      ((0 : Nat) ≠ 1 → ∀ r ∈ readPairs "ac" 10 0 2,
        ¬ ((r.ref = 0 ∧ r.mateRef = 1) ∨ (r.ref = 1 ∧ r.mateRef = 0))) :=
  ⟨by decide,
    no_intra_group_survivors [[0, 1]] { groups := [[0, 1]] } scenarioStream
      (readPairs "ac" 10 0 2) 22 0 1 rfl scenario_run (by decide)⟩

/-- Witness of C9: in the concrete scenario 22 alignments are removed, 20 are
retained and the stream has 42. -/
theorem conservation_witness :
    prune [[0, 1]] scenarioStream = .ok (readPairs "ac" 10 0 2, 22) ∧
      22 + (readPairs "ac" 10 (0 : Nat) 2).length = scenarioStream.length :=
  ⟨scenario_run, conservation [[0, 1]] scenarioStream (readPairs "ac" 10 0 2) 22 scenario_run⟩

end ALLHiCPrune
